import Mathlib

/-!
Verification of the instagram-follower-analyzer ingestion/analysis pipeline.

The JavaScript sources are shallowly embedded as Lean functions:
* the relationship analyzer from backend/utils/analyzer.js (analyzeFollowers),
* the timeline builder from backend/routes/upload.js (createProgressiveTimelineEvents),
* the fragment merger normalizeList and the record helpers extractUsername /
  extractTimestamp from the merge variant of the upload route,
* the archive entry classifier processFileContent and the empty-dataset check
  from backend/routes/upload.js,
* the cross-session unfollow detector loop and addUnfollowedProfile,
* the pagination validator and the unfollowed listing route from
  backend/routes/analysis.js,
* saveFollowerEvent from backend/models/database.js.

JavaScript strings stand for themselves; JS string truthiness is modelled by
non-emptiness, numeric truthiness by being non-zero.  Unix-second timestamps
are modelled as Int (the ISO conversion used by the database layer is
injective on seconds, so equality of converted timestamps is equality of the
seconds).  The stable Array.prototype.sort is modelled by the stable
List.insertionSort.
-/

/-- Direction of a timeline event: from the followers list or the following list. -/
inductive Direction where
  | follower
  | following
deriving DecidableEq, Repr

/-- A normalized contact record as produced by flattenStringListData in
backend/utils/analyzer.js: value and username both carry the handle
(username is the backward-compatibility copy), href is the profile URL and
timestamp the observation time.  An absent JS field is the empty string /
none. -/
structure Contact where
  value : String
  username : String
  href : Option String
  timestamp : Option Int
deriving DecidableEq, Repr

/-- JS expression `c.value || c.username` used throughout the analyzer as the
handle of a contact: value unless value is falsy (empty). -/
def handleOf (c : Contact) : String :=
  if c.value = "" then c.username else c.value

/-- Result record of the relationship analyzer. -/
structure RelationshipSets where
  mutuals : List Contact
  followersOnly : List Contact
  followingOnly : List Contact
deriving DecidableEq, Repr

/-- One step of the followers.forEach loop of analyzeFollowers
(backend/utils/analyzer.js lines 36-43): push the follower onto mutual when
its handle is in the following-username set, else onto followersOnly. -/
def classifyFollower (followingUsernames : List String)
    (acc : List Contact × List Contact) (f : Contact) :
    List Contact × List Contact :=
  if handleOf f ∈ followingUsernames then (acc.1 ++ [f], acc.2)
  else (acc.1, acc.2 ++ [f])

/-- One step of the following.forEach loop (lines 46-51): push onto
followingOnly when the handle is not in the follower-username set. -/
def classifyFollowing (followerUsernames : List String)
    (acc : List Contact) (g : Contact) : List Contact :=
  if handleOf g ∈ followerUsernames then acc else acc ++ [g]

/-- The relationship analyzer analyzeFollowers of backend/utils/analyzer.js
(lines 22-51): membership sets are the mapped handles, and the three output
lists are built by the two forEach loops. -/
def analyzeFollowers (followers following : List Contact) : RelationshipSets :=
  let followerUsernames := followers.map handleOf
  let followingUsernames := following.map handleOf
  let mf := followers.foldl (classifyFollower followingUsernames) ([], [])
  let fo := following.foldl (classifyFollowing followerUsernames) []
  ⟨mf.1, mf.2, fo⟩

theorem classifyFollower_fold (gs : List String) (fs : List Contact)
    (m fo : List Contact) :
    fs.foldl (classifyFollower gs) (m, fo) =
      (m ++ fs.filter (fun f => decide (handleOf f ∈ gs)),
       fo ++ fs.filter (fun f => !decide (handleOf f ∈ gs))) := by
  induction fs generalizing m fo with
  | nil => simp
  | cons f fs ih =>
    by_cases h : handleOf f ∈ gs <;>
      simp [List.foldl_cons, classifyFollower, h, ih, List.filter_cons]

theorem classifyFollowing_fold (hs : List String) (gs : List Contact)
    (fo : List Contact) :
    gs.foldl (classifyFollowing hs) fo =
      fo ++ gs.filter (fun g => !decide (handleOf g ∈ hs)) := by
  induction gs generalizing fo with
  | nil => simp
  | cons g gs ih =>
    by_cases h : handleOf g ∈ hs <;>
      simp [List.foldl_cons, classifyFollowing, h, ih, List.filter_cons]

theorem analyzeFollowers_mutual (followers following : List Contact) :
    (analyzeFollowers followers following).mutuals =
      followers.filter (fun f => decide (handleOf f ∈ following.map handleOf)) := by
  simp [analyzeFollowers, classifyFollower_fold]

theorem analyzeFollowers_followersOnly (followers following : List Contact) :
    (analyzeFollowers followers following).followersOnly =
      followers.filter (fun f => !decide (handleOf f ∈ following.map handleOf)) := by
  simp [analyzeFollowers, classifyFollower_fold]

theorem analyzeFollowers_followingOnly (followers following : List Contact) :
    (analyzeFollowers followers following).followingOnly =
      following.filter (fun g => !decide (handleOf g ∈ followers.map handleOf)) := by
  simp [analyzeFollowers, classifyFollowing_fold]

/-- C1: the analyzer partitions the inputs: mutual is the Followers contacts
whose handle also occurs in Following, followersOnly those whose handle does
not, followingOnly the Following contacts whose handle is not a follower
handle; on handle sets mutual = F∩G, followersOnly = F\G, followingOnly =
G\F; mutual is disjoint from followersOnly and from followingOnly, mutual
together with followersOnly is exactly Followers and mutual's handles
together with followingOnly's handles are exactly Following's; every output
contact is a record of its source list (mutual carries the Followers-side
record). -/
theorem analyzeFollowers_partition (followers following : List Contact)
    (hF : (followers.map handleOf).Nodup) (hG : (following.map handleOf).Nodup) :
    (∀ c, c ∈ (analyzeFollowers followers following).mutuals ↔
        c ∈ followers ∧ handleOf c ∈ following.map handleOf) ∧
    (∀ c, c ∈ (analyzeFollowers followers following).followersOnly ↔
        c ∈ followers ∧ handleOf c ∉ following.map handleOf) ∧
    (∀ c, c ∈ (analyzeFollowers followers following).followingOnly ↔
        c ∈ following ∧ handleOf c ∉ followers.map handleOf) ∧
    (∀ h, h ∈ (analyzeFollowers followers following).mutuals.map handleOf ↔
        h ∈ followers.map handleOf ∧ h ∈ following.map handleOf) ∧
    (∀ h, h ∈ (analyzeFollowers followers following).followersOnly.map handleOf ↔
        h ∈ followers.map handleOf ∧ h ∉ following.map handleOf) ∧
    (∀ h, h ∈ (analyzeFollowers followers following).followingOnly.map handleOf ↔
        h ∈ following.map handleOf ∧ h ∉ followers.map handleOf) ∧
    (∀ c, ¬(c ∈ (analyzeFollowers followers following).mutuals ∧
        c ∈ (analyzeFollowers followers following).followersOnly)) ∧
    ((analyzeFollowers followers following).mutuals ++
        (analyzeFollowers followers following).followersOnly).Perm followers ∧
    (∀ h, ¬(h ∈ (analyzeFollowers followers following).mutuals.map handleOf ∧
        h ∈ (analyzeFollowers followers following).followingOnly.map handleOf)) ∧
    (∀ h, h ∈ (analyzeFollowers followers following).mutuals.map handleOf ∨
        h ∈ (analyzeFollowers followers following).followingOnly.map handleOf ↔
        h ∈ following.map handleOf) ∧
    (∀ c ∈ (analyzeFollowers followers following).mutuals, c ∈ followers) ∧
    (∀ c ∈ (analyzeFollowers followers following).followersOnly, c ∈ followers) ∧
    (∀ c ∈ (analyzeFollowers followers following).followingOnly, c ∈ following) := by
  rw [analyzeFollowers_mutual, analyzeFollowers_followersOnly,
    analyzeFollowers_followingOnly]
  refine ⟨?_, ?_, ?_, ?_, ?_, ?_, ?_, ?_, ?_, ?_, ?_, ?_, ?_⟩
  · intro c; simp [List.mem_filter]
  · intro c; simp [List.mem_filter]
  · intro c; simp [List.mem_filter]
  · intro h
    constructor
    · rintro hmem
      rcases List.mem_map.1 hmem with ⟨c, hc, rfl⟩
      rcases List.mem_filter.1 hc with ⟨hcF, hcG⟩
      exact ⟨List.mem_map_of_mem handleOf hcF, by simpa using hcG⟩
    · rintro ⟨hF', hG'⟩
      rcases List.mem_map.1 hF' with ⟨c, hc, rfl⟩
      exact List.mem_map_of_mem handleOf
        (List.mem_filter.2 ⟨hc, by simpa using hG'⟩)
  · intro h
    constructor
    · rintro hmem
      rcases List.mem_map.1 hmem with ⟨c, hc, rfl⟩
      rcases List.mem_filter.1 hc with ⟨hcF, hcG⟩
      exact ⟨List.mem_map_of_mem handleOf hcF, by simpa using hcG⟩
    · rintro ⟨hF', hG'⟩
      rcases List.mem_map.1 hF' with ⟨c, hc, rfl⟩
      exact List.mem_map_of_mem handleOf
        (List.mem_filter.2 ⟨hc, by simpa using hG'⟩)
  · intro h
    constructor
    · rintro hmem
      rcases List.mem_map.1 hmem with ⟨c, hc, rfl⟩
      rcases List.mem_filter.1 hc with ⟨hcG, hcF⟩
      exact ⟨List.mem_map_of_mem handleOf hcG, by simpa using hcF⟩
    · rintro ⟨hG', hF'⟩
      rcases List.mem_map.1 hG' with ⟨c, hc, rfl⟩
      exact List.mem_map_of_mem handleOf
        (List.mem_filter.2 ⟨hc, by simpa using hF'⟩)
  · rintro c ⟨h1, h2⟩
    rcases List.mem_filter.1 h1 with ⟨-, hin⟩
    rcases List.mem_filter.1 h2 with ⟨-, hout⟩
    rw [hin] at hout
    exact absurd hout (by simp)
  · exact List.filter_append_perm _ followers
  · rintro h ⟨h1, h2⟩
    rcases List.mem_map.1 h1 with ⟨c, hc, rfl⟩
    rcases List.mem_filter.1 hc with ⟨hcF, hcG⟩
    rcases List.mem_map.1 h2 with ⟨d, hd, hcd⟩
    rcases List.mem_filter.1 hd with ⟨hdG, hdF⟩
    have : handleOf d ∈ followers.map handleOf :=
      hcd ▸ List.mem_map_of_mem handleOf hcF
    simp [this] at hdF
  · intro h
    constructor
    · rintro (hmem | hmem)
      · rcases List.mem_map.1 hmem with ⟨c, hc, rfl⟩
        rcases List.mem_filter.1 hc with ⟨hcF, hcG⟩
        simpa using hcG
      · rcases List.mem_map.1 hmem with ⟨c, hc, rfl⟩
        exact List.mem_map_of_mem handleOf (List.mem_filter.1 hc).1
    · intro hG'
      rcases List.mem_map.1 hG' with ⟨c, hc, rfl⟩
      by_cases hmemF : handleOf c ∈ followers.map handleOf
      · left
        rcases List.mem_map.1 hmemF with ⟨d, hd, hcd⟩
        refine List.mem_map.2 ⟨d, List.mem_filter.2 ⟨hd, ?_⟩, hcd⟩
        simp only [decide_eq_true_eq]
        exact hcd ▸ List.mem_map_of_mem handleOf hc
      · right
        exact List.mem_map_of_mem handleOf
          (List.mem_filter.2 ⟨hc, by simpa using hmemF⟩)
  · intro c hc; exact (List.mem_filter.1 hc).1
  · intro c hc; exact (List.mem_filter.1 hc).1
  · intro c hc; exact (List.mem_filter.1 hc).1

/-- Witness for analyzeFollowers_partition: the spec's end-to-end example,
Followers = [alice, bob], Following = [bob, carol]. -/
theorem analyzeFollowers_partition_witness :
    (([Contact.mk "alice" "alice" none (some 10),
       Contact.mk "bob" "bob" none (some 20)].map handleOf).Nodup ∧
     ([Contact.mk "bob" "bob" none (some 20),
       Contact.mk "carol" "carol" none (some 30)].map handleOf).Nodup) ∧
    (∀ c, c ∈ (analyzeFollowers
        [Contact.mk "alice" "alice" none (some 10),
         Contact.mk "bob" "bob" none (some 20)]
        [Contact.mk "bob" "bob" none (some 20),
         Contact.mk "carol" "carol" none (some 30)]).mutuals ↔
      c ∈ [Contact.mk "alice" "alice" none (some 10),
           Contact.mk "bob" "bob" none (some 20)] ∧
      handleOf c ∈ [Contact.mk "bob" "bob" none (some 20),
           Contact.mk "carol" "carol" none (some 30)].map handleOf) :=
  ⟨⟨by decide, by decide⟩,
   (analyzeFollowers_partition
      [Contact.mk "alice" "alice" none (some 10),
       Contact.mk "bob" "bob" none (some 20)]
      [Contact.mk "bob" "bob" none (some 20),
       Contact.mk "carol" "carol" none (some 30)]
      (by decide) (by decide)).1⟩

/-- C9: the analyzer only filters: mutual and followersOnly are subsequences
of the Followers input and followingOnly is a subsequence of the Following
input, so no contact is reordered, duplicated or modified. -/
theorem analyzeFollowers_sublists (followers following : List Contact) :
    List.Sublist (analyzeFollowers followers following).mutuals followers ∧
    List.Sublist (analyzeFollowers followers following).followersOnly followers ∧
    List.Sublist (analyzeFollowers followers following).followingOnly following := by
  rw [analyzeFollowers_mutual, analyzeFollowers_followersOnly,
    analyzeFollowers_followingOnly]
  exact ⟨List.filter_sublist _, List.filter_sublist _, List.filter_sublist _⟩

/-- An item of the lists handed to createProgressiveTimelineEvents in
backend/routes/upload.js: processFileContent only keeps entries whose
string_list_data[0] has a truthy value and timestamp, and the timeline
builder reads exactly those two fields plus href.  This structure is that
first string_list_data element. -/
structure SLItem where
  value : String
  href : Option String
  timestamp : Int
deriving DecidableEq, Repr

/-- A candidate event pushed onto allEvents by createProgressiveTimelineEvents
before the counting pass. -/
structure RawTimelineEvent where
  timestamp : Int
  username : String
  direction : Direction
deriving DecidableEq, Repr

/-- A timeline event after the progressive-count pass. -/
structure TimelineEvent where
  timestamp : Int
  username : String
  direction : Direction
  followersCount : Nat
  followingCount : Nat
deriving DecidableEq, Repr

/-- Comparator (a, b) => a.timestamp - b.timestamp of the JS sort, as the
corresponding order relation. -/
def evLE (a b : RawTimelineEvent) : Prop := a.timestamp ≤ b.timestamp

instance : DecidableRel evLE :=
  fun a b => inferInstanceAs (Decidable (a.timestamp ≤ b.timestamp))

instance : IsTotal RawTimelineEvent evLE :=
  ⟨fun a b => Int.le_total a.timestamp b.timestamp⟩

instance : IsTrans RawTimelineEvent evLE :=
  ⟨fun _ _ _ hab hbc => le_trans hab hbc⟩

/-- Counter update of the counting pass: followersCount++ on a follower
event, followingCount++ on a following event. -/
def bumpCounts (fc gc : Nat) (e : RawTimelineEvent) : Nat × Nat :=
  match e.direction with
  | Direction.follower => (fc + 1, gc)
  | Direction.following => (fc, gc + 1)

/-- The allEvents.map pass of createProgressiveTimelineEvents: walk the
sorted events, increment the counter matching each event's direction, and
stamp both current counter values onto the event. -/
def addCounts (fc gc : Nat) : List RawTimelineEvent → List TimelineEvent
  | [] => []
  | e :: rest =>
    TimelineEvent.mk e.timestamp e.username e.direction
        (bumpCounts fc gc e).1 (bumpCounts fc gc e).2 ::
      addCounts (bumpCounts fc gc e).1 (bumpCounts fc gc e).2 rest

/-- createProgressiveTimelineEvents of backend/routes/upload.js (lines
281-328): one candidate event per contact per list, sorted ascending by
timestamp (stable JS sort), then the progressive-count pass starting from
counters (0, 0). -/
def createProgressiveTimelineEvents (followers following : List SLItem) :
    List TimelineEvent :=
  let allEvents :=
    followers.map (fun f => RawTimelineEvent.mk f.timestamp f.value Direction.follower) ++
    following.map (fun g => RawTimelineEvent.mk g.timestamp g.value Direction.following)
  addCounts 0 0 (allEvents.insertionSort evLE)

/-- Specification predicate for C2: starting from counter state (fc, gc),
each event carries counts obtained from the previous state by incrementing
exactly the counter of its own direction by exactly 1 and copying the
other. -/
def countsOk (fc gc : Nat) : List TimelineEvent → Prop
  | [] => True
  | e :: rest =>
    ((e.direction = Direction.follower ∧
        e.followersCount = fc + 1 ∧ e.followingCount = gc) ∨
     (e.direction = Direction.following ∧
        e.followersCount = fc ∧ e.followingCount = gc + 1)) ∧
    countsOk e.followersCount e.followingCount rest

theorem addCounts_countsOk (l : List RawTimelineEvent) :
    ∀ fc gc, countsOk fc gc (addCounts fc gc l) := by
  induction l with
  | nil => intro fc gc; simp [addCounts, countsOk]
  | cons e rest ih =>
    intro fc gc
    cases hdir : e.direction <;>
      simp [addCounts, countsOk, bumpCounts, hdir, ih]

theorem addCounts_map_timestamp (l : List RawTimelineEvent) :
    ∀ fc gc, (addCounts fc gc l).map (fun e => e.timestamp) =
      l.map (fun e => e.timestamp) := by
  induction l with
  | nil => intro fc gc; rfl
  | cons e rest ih => intro fc gc; simp [addCounts, ih]

theorem countsOk_chain (l : List TimelineEvent) :
    ∀ fc gc, countsOk fc gc l →
      l.Chain' (fun a b => a.followersCount ≤ b.followersCount ∧
        a.followingCount ≤ b.followingCount) := by
  induction l with
  | nil => intro fc gc _; simp
  | cons e rest ih =>
    intro fc gc h
    rcases h with ⟨-, hrest⟩
    have hchain := ih e.followersCount e.followingCount hrest
    cases rest with
    | nil => simp
    | cons r rs =>
      rw [List.chain'_cons]
      refine ⟨?_, hchain⟩
      rcases hrest with ⟨hstep, -⟩
      rcases hstep with ⟨-, h1, h2⟩ | ⟨-, h1, h2⟩ <;> omega

/-- C2: the built timeline is sorted ascending by timestamp; walking it in
order from counters (0, 0), each event increments exactly the counter
matching its own direction by exactly 1 (countsOk), and consequently both
running counts are non-decreasing along the sequence. -/
theorem createProgressiveTimelineEvents_invariants (F G : List SLItem) :
    (createProgressiveTimelineEvents F G).Pairwise
      (fun a b => a.timestamp ≤ b.timestamp) ∧
    countsOk 0 0 (createProgressiveTimelineEvents F G) ∧
    (createProgressiveTimelineEvents F G).Chain'
      (fun a b => a.followersCount ≤ b.followersCount ∧
        a.followingCount ≤ b.followingCount) := by
  refine ⟨?_, ?_, ?_⟩
  · have hsorted := List.sorted_insertionSort evLE
      ((F.map (fun f => RawTimelineEvent.mk f.timestamp f.value Direction.follower) ++
        G.map (fun g => RawTimelineEvent.mk g.timestamp g.value Direction.following)))
    have hmap := addCounts_map_timestamp
      ((F.map (fun f => RawTimelineEvent.mk f.timestamp f.value Direction.follower) ++
        G.map (fun g => RawTimelineEvent.mk g.timestamp g.value Direction.following)).insertionSort evLE)
      0 0
    have h1 : ((createProgressiveTimelineEvents F G).map
        (fun e => e.timestamp)).Pairwise (fun a b => a ≤ b) := by
      rw [createProgressiveTimelineEvents, hmap]
      rw [List.pairwise_map]
      exact hsorted
    rw [List.pairwise_map] at h1
    exact h1
  · exact addCounts_countsOk _ 0 0
  · exact countsOk_chain _ 0 0 (addCounts_countsOk _ 0 0)

/-- Number of events of a given direction among the raw candidate events. -/
def countDir (d : Direction) (l : List RawTimelineEvent) : Nat :=
  l.countP (fun e => decide (e.direction = d))

theorem addCounts_getLast (l : List RawTimelineEvent) :
    ∀ fc gc, (addCounts fc gc l).getLast?.map
        (fun e => (e.followersCount, e.followingCount)) =
      if l = [] then none
      else some (fc + countDir Direction.follower l,
                 gc + countDir Direction.following l) := by
  induction l with
  | nil => intro fc gc; rfl
  | cons e rest ih =>
    intro fc gc
    cases rest with
    | nil =>
      cases hdir : e.direction <;>
        simp [addCounts, bumpCounts, countDir, hdir]
    | cons r rs =>
      have hcons : addCounts fc gc (e :: r :: rs) =
          TimelineEvent.mk e.timestamp e.username e.direction
              (bumpCounts fc gc e).1 (bumpCounts fc gc e).2 ::
            addCounts (bumpCounts fc gc e).1 (bumpCounts fc gc e).2 (r :: rs) := rfl
      have hcons2 : addCounts (bumpCounts fc gc e).1 (bumpCounts fc gc e).2 (r :: rs) =
          TimelineEvent.mk r.timestamp r.username r.direction
              (bumpCounts (bumpCounts fc gc e).1 (bumpCounts fc gc e).2 r).1
              (bumpCounts (bumpCounts fc gc e).1 (bumpCounts fc gc e).2 r).2 ::
            addCounts (bumpCounts (bumpCounts fc gc e).1 (bumpCounts fc gc e).2 r).1
              (bumpCounts (bumpCounts fc gc e).1 (bumpCounts fc gc e).2 r).2 rs := rfl
    
      rw [hcons, hcons2, List.getLast?_cons_cons, ← hcons2,
        ih (bumpCounts fc gc e).1 (bumpCounts fc gc e).2]
      cases hdir : e.direction <;>
        simp [bumpCounts, countDir, hdir, List.countP_cons] <;> omega

/-- C3: after all events of the built timeline are consumed, the last event's
followersCountAfter is the number of follower contacts and its
followingCountAfter is the number of following contacts; when both input
lists are empty the timeline is empty and there are no counts. -/
theorem createProgressiveTimelineEvents_final_counts (F G : List SLItem) :
    ((createProgressiveTimelineEvents F G).getLast?).map
        (fun e => (e.followersCount, e.followingCount)) =
      if F = [] ∧ G = [] then none else some (F.length, G.length) := by
  rw [createProgressiveTimelineEvents]
  rw [addCounts_getLast]
  have hperm := List.perm_insertionSort evLE
    (F.map (fun f => RawTimelineEvent.mk f.timestamp f.value Direction.follower) ++
     G.map (fun g => RawTimelineEvent.mk g.timestamp g.value Direction.following))
  have hnil : ((F.map (fun f => RawTimelineEvent.mk f.timestamp f.value Direction.follower) ++
      G.map (fun g => RawTimelineEvent.mk g.timestamp g.value Direction.following)).insertionSort
        evLE) = [] ↔ (F = [] ∧ G = []) := by
    constructor
    · intro h
      have h2 := hperm.symm
      rw [h] at h2
      rcases List.append_eq_nil.mp h2.eq_nil with ⟨h3, h4⟩
      exact ⟨List.map_eq_nil_iff.mp h3, List.map_eq_nil_iff.mp h4⟩
    · rintro ⟨h3, h4⟩
      subst h3; subst h4
      rfl
  by_cases hFG : F = [] ∧ G = []
  · rw [if_pos (hnil.mpr hFG), if_pos hFG]
  · rw [if_neg (fun h => hFG (hnil.mp h)), if_neg hFG]
    have hcf : countDir Direction.follower
        ((F.map (fun f => RawTimelineEvent.mk f.timestamp f.value Direction.follower) ++
          G.map (fun g => RawTimelineEvent.mk g.timestamp g.value Direction.following)).insertionSort
            evLE) = F.length := by
      unfold countDir
      rw [hperm.countP_eq]
      simp [List.countP_append, List.countP_map, Function.comp_def]
    have hcg : countDir Direction.following
        ((F.map (fun f => RawTimelineEvent.mk f.timestamp f.value Direction.follower) ++
          G.map (fun g => RawTimelineEvent.mk g.timestamp g.value Direction.following)).insertionSort
            evLE) = G.length := by
      unfold countDir
      rw [hperm.countP_eq]
      simp [List.countP_append, List.countP_map, Function.comp_def]
    rw [hcf, hcg]
    simp

/-- One element of an entry's string_list_data array in the raw Instagram
export JSON. -/
structure StringListEntry where
  value : Option String
  href : Option String
  timestamp : Option Int
deriving DecidableEq, Repr

/-- A raw export entry as consumed by the global helpers extractUsername and
extractTimestamp of the merge variant of the upload route: an optional
string_list_data array plus the flat fallback fields title / value /
username / timestamp. -/
structure RawItem where
  string_list_data : Option (List StringListEntry)
  title : Option String
  value : Option String
  username : Option String
  timestamp : Option Int
deriving DecidableEq, Repr

/-- JS truthiness of an optional string: present and non-empty. -/
def strTruthy : Option String → Bool
  | none => false
  | some s => decide (s ≠ "")

/-- JS expression item.string_list_data && item.string_list_data[0]. -/
def firstSLD (i : RawItem) : Option StringListEntry :=
  match i.string_list_data with
  | none => none
  | some l => l.head?

/-- Flat-field fallbacks of extractUsername: item.title, item.value,
item.username, in that order, each under JS truthiness. -/
def usernameFallback (i : RawItem) : Option String :=
  if strTruthy i.title then i.title
  else if strTruthy i.value then i.value
  else if strTruthy i.username then i.username
  else none

/-- extractUsername of the merge upload route: the first string_list_data
element's value when truthy, else the flat fallbacks, else null. -/
def extractUsername (i : RawItem) : Option String :=
  match firstSLD i with
  | some sld => if strTruthy sld.value then sld.value else usernameFallback i
  | none => usernameFallback i

/-- extractTimestamp of the merge upload route: the first string_list_data
element's timestamp when present (an explicit 0 counts as present, the JS
checks sld.timestamp || sld.timestamp === 0), else the flat item.timestamp,
else null. -/
def extractTimestamp (i : RawItem) : Option Int :=
  match firstSLD i with
  | some sld =>
    match sld.timestamp with
    | some t => some t
    | none => i.timestamp
  | none => i.timestamp

/-- JS expression extractTimestamp(item) || 0 used by normalizeList for both
deduplication and sorting: a missing timestamp is treated as 0. -/
def tsOrZero (i : RawItem) : Int :=
  match extractTimestamp i with
  | some t => t
  | none => 0

/-- The insertion-ordered JS Map of normalizeList, as an association list of
username to the kept (item, timestamp) pair. -/
abbrev SeenMap := List (String × RawItem × Int)

/-- Map.get. -/
def seenLookup : SeenMap → String → Option (RawItem × Int)
  | [], _ => none
  | (k, v) :: rest, u => if k = u then some v else seenLookup rest u

/-- Map.set of the insertion-ordered JS Map: replace in place when the key
exists, else append. -/
def seenInsert : SeenMap → String → RawItem × Int → SeenMap
  | [], u, v => [(u, v)]
  | (k, w) :: rest, u, v =>
    if k = u then (k, v) :: rest else (k, w) :: seenInsert rest u v

/-- The forEach loop of normalizeList (merge upload route, lines 117-131):
skip entries without a username; otherwise keep the entry when the username
is unseen or the stored timestamp (missing treated as 0) is strictly larger
than the new one. -/
def buildSeen : SeenMap → List RawItem → SeenMap
  | seen, [] => seen
  | seen, item :: rest =>
    match extractUsername item with
    | none => buildSeen seen rest
    | some u =>
      match seenLookup seen u with
      | none => buildSeen (seenInsert seen u (item, tsOrZero item)) rest
      | some (_, st) =>
        if st > tsOrZero item then
          buildSeen (seenInsert seen u (item, tsOrZero item)) rest
        else buildSeen seen rest

/-- Comparator (a, b) => (extractTimestamp(a)||0) - (extractTimestamp(b)||0)
of normalizeList's final sort, as the corresponding order relation. -/
def normTsLE (a b : RawItem) : Prop := tsOrZero a ≤ tsOrZero b

instance : DecidableRel normTsLE :=
  fun a b => inferInstanceAs (Decidable (tsOrZero a ≤ tsOrZero b))

instance : IsTotal RawItem normTsLE :=
  ⟨fun a b => Int.le_total (tsOrZero a) (tsOrZero b)⟩

instance : IsTrans RawItem normTsLE :=
  ⟨fun _ _ _ hab hbc => le_trans hab hbc⟩

/-- normalizeList of the merge variant of the upload route (lines 117-140):
deduplicate by username keeping the entry with the smallest
timestamp-or-zero (first seen wins ties), then sort the kept entries
ascending by timestamp-or-zero (stable JS sort). -/
def normalizeList (l : List RawItem) : List RawItem :=
  ((buildSeen [] l).map (fun p => p.2.1)).insertionSort normTsLE

/-- Specification of one normalizeList dedup step restricted to one username:
the kept candidate is replaced exactly when the new entry has the username
and a strictly smaller timestamp-or-zero. -/
def pickStep (h : String) (cur : Option (RawItem × Int)) (item : RawItem) :
    Option (RawItem × Int) :=
  if extractUsername item = some h then
    match cur with
    | none => some (item, tsOrZero item)
    | some (x, st) =>
      if st > tsOrZero item then some (item, tsOrZero item) else some (x, st)
  else cur

theorem seenLookup_insert_self (seen : SeenMap) (u : String) (v : RawItem × Int) :
    seenLookup (seenInsert seen u v) u = some v := by
  induction seen with
  | nil => simp [seenInsert, seenLookup]
  | cons p rest ih =>
    by_cases hk : p.1 = u <;>
      simp [seenInsert, seenLookup, hk, ih]

theorem seenLookup_insert_ne (seen : SeenMap) (u u' : String) (v : RawItem × Int)
    (hne : u ≠ u') :
    seenLookup (seenInsert seen u v) u' = seenLookup seen u' := by
  have hne' : u' ≠ u := fun hh => hne hh.symm
  induction seen with
  | nil => simp [seenInsert, seenLookup, hne]
  | cons p rest ih =>
    rcases p with ⟨k, w⟩
    by_cases hk : k = u
    · subst hk
      simp [seenInsert, seenLookup, hne]
    · by_cases hk' : k = u' <;>
        simp [seenInsert, seenLookup, hk, hk', hne', ih]

theorem buildSeen_cons_none (seen : SeenMap) (item : RawItem) (rest : List RawItem)
    (hu : extractUsername item = none) :
    buildSeen seen (item :: rest) = buildSeen seen rest := by
  simp [buildSeen, hu]

theorem buildSeen_cons_new (seen : SeenMap) (item : RawItem) (rest : List RawItem)
    (u : String) (hu : extractUsername item = some u)
    (hlu : seenLookup seen u = none) :
    buildSeen seen (item :: rest) =
      buildSeen (seenInsert seen u (item, tsOrZero item)) rest := by
  simp [buildSeen, hu, hlu]

theorem buildSeen_cons_replace (seen : SeenMap) (item : RawItem)
    (rest : List RawItem) (u : String) (x : RawItem) (st : Int)
    (hu : extractUsername item = some u)
    (hlu : seenLookup seen u = some (x, st)) (hgt : st > tsOrZero item) :
    buildSeen seen (item :: rest) =
      buildSeen (seenInsert seen u (item, tsOrZero item)) rest := by
  simp [buildSeen, hu, hlu, hgt]

theorem buildSeen_cons_keep (seen : SeenMap) (item : RawItem)
    (rest : List RawItem) (u : String) (x : RawItem) (st : Int)
    (hu : extractUsername item = some u)
    (hlu : seenLookup seen u = some (x, st)) (hgt : ¬st > tsOrZero item) :
    buildSeen seen (item :: rest) = buildSeen seen rest := by
  simp [buildSeen, hu, hlu, hgt]

theorem buildSeen_lookup (l : List RawItem) :
    ∀ (seen : SeenMap) (h : String),
      seenLookup (buildSeen seen l) h = l.foldl (pickStep h) (seenLookup seen h) := by
  induction l with
  | nil => intro seen h; rfl
  | cons item rest ih =>
    intro seen h
    rw [List.foldl_cons]
    cases hu : extractUsername item with
    | none =>
      have hskip : pickStep h (seenLookup seen h) item = seenLookup seen h := by
        simp [pickStep, hu]
      rw [buildSeen_cons_none seen item rest hu, ih, hskip]
    | some u =>
      by_cases huh : u = h
      · subst huh
        cases hlu : seenLookup seen u with
        | none =>
          rw [buildSeen_cons_new seen item rest u hu hlu, ih,
            seenLookup_insert_self]
          simp [pickStep, hu]
        | some p =>
          rcases p with ⟨x, st⟩
          by_cases hgt : st > tsOrZero item
          · rw [buildSeen_cons_replace seen item rest u x st hu hlu hgt, ih,
              seenLookup_insert_self]
            simp [pickStep, hu, hgt]
          · rw [buildSeen_cons_keep seen item rest u x st hu hlu hgt, ih, hlu]
            simp [pickStep, hu, hgt]
      · have hskip : pickStep h (seenLookup seen h) item = seenLookup seen h := by
          simp [pickStep, hu, huh]
        cases hlu : seenLookup seen u with
        | none =>
          rw [buildSeen_cons_new seen item rest u hu hlu, ih,
            seenLookup_insert_ne _ _ _ _ huh, hskip]
        | some p =>
          rcases p with ⟨x, st⟩
          by_cases hgt : st > tsOrZero item
          · rw [buildSeen_cons_replace seen item rest u x st hu hlu hgt, ih,
              seenLookup_insert_ne _ _ _ _ huh, hskip]
          · rw [buildSeen_cons_keep seen item rest u x st hu hlu hgt, ih, hskip]

/-- Well-formedness of the dedup map: keys are distinct and each stored item
extracts to its key. -/
def seenWF (seen : SeenMap) : Prop :=
  (seen.map Prod.fst).Nodup ∧ ∀ p ∈ seen, extractUsername p.2.1 = some p.1

theorem seenInsert_keys (seen : SeenMap) (u : String) (v : RawItem × Int) :
    (seenInsert seen u v).map Prod.fst =
      if u ∈ seen.map Prod.fst then seen.map Prod.fst
      else seen.map Prod.fst ++ [u] := by
  induction seen with
  | nil => simp [seenInsert]
  | cons p rest ih =>
    rcases p with ⟨k, w⟩
    by_cases hk : k = u
    · subst hk
      simp [seenInsert]
    · have hku : u ≠ k := fun hh => hk hh.symm
      by_cases hm : u ∈ rest.map Prod.fst <;>
        simp [seenInsert, hk, ih, hm, hku]

theorem seenInsert_mem (seen : SeenMap) (u : String) (v : RawItem × Int)
    (q : String × RawItem × Int) (hq : q ∈ seenInsert seen u v) :
    q = (u, v) ∨ q ∈ seen := by
  induction seen with
  | nil =>
    simp only [seenInsert, List.mem_singleton] at hq
    exact Or.inl hq
  | cons p rest ih =>
    rcases p with ⟨k, w⟩
    by_cases hk : k = u
    · subst hk
      simp only [seenInsert, if_pos] at hq
      rw [List.mem_cons] at hq
      rcases hq with hq1 | hq1
      · exact Or.inl hq1
      · exact Or.inr (List.mem_cons_of_mem _ hq1)
    · simp only [seenInsert, if_neg hk] at hq
      rw [List.mem_cons] at hq
      rcases hq with hq1 | hq1
      · exact Or.inr (hq1 ▸ List.mem_cons_self _ _)
      · rcases ih hq1 with hq' | hq'
        · exact Or.inl hq'
        · exact Or.inr (List.mem_cons_of_mem _ hq')

theorem seenInsert_wf (seen : SeenMap) (u : String) (item : RawItem) (t : Int)
    (hwf : seenWF seen) (hu : extractUsername item = some u) :
    seenWF (seenInsert seen u (item, t)) := by
  constructor
  · rw [seenInsert_keys]
    by_cases hm : u ∈ seen.map Prod.fst
    · simpa [hm] using hwf.1
    · rw [if_neg hm, List.nodup_append]
      exact ⟨hwf.1, List.nodup_singleton u, by simpa using fun hmem => hm hmem⟩
  · intro p hp
    rcases seenInsert_mem seen u (item, t) p hp with hp' | hp'
    · rw [hp']; exact hu
    · exact hwf.2 p hp'

theorem buildSeen_wf (l : List RawItem) :
    ∀ seen : SeenMap, seenWF seen → seenWF (buildSeen seen l) := by
  induction l with
  | nil => intro seen hwf; exact hwf
  | cons item rest ih =>
    intro seen hwf
    cases hu : extractUsername item with
    | none => rw [buildSeen_cons_none seen item rest hu]; exact ih seen hwf
    | some u =>
      cases hlu : seenLookup seen u with
      | none =>
        rw [buildSeen_cons_new seen item rest u hu hlu]
        exact ih _ (seenInsert_wf seen u item (tsOrZero item) hwf hu)
      | some p =>
        rcases p with ⟨x, st⟩
        by_cases hgt : st > tsOrZero item
        · rw [buildSeen_cons_replace seen item rest u x st hu hlu hgt]
          exact ih _ (seenInsert_wf seen u item (tsOrZero item) hwf hu)
        · rw [buildSeen_cons_keep seen item rest u x st hu hlu hgt]
          exact ih seen hwf

theorem seenVals_filter (h : String) (seen : SeenMap) (hwf : seenWF seen) :
    (seen.map (fun p => p.2.1)).filter
        (fun i => decide (extractUsername i = some h)) =
      (Option.map (fun (v : RawItem × Int) => v.1) (seenLookup seen h)).toList := by
  induction seen with
  | nil => rfl
  | cons p rest ih =>
    rcases p with ⟨k, x, t⟩
    have hk : extractUsername x = some k := hwf.2 ⟨k, x, t⟩ (List.mem_cons_self _ _)
    have hnodup := hwf.1
    rw [List.map_cons, List.nodup_cons] at hnodup
    have hrestwf : seenWF rest :=
      ⟨hnodup.2, fun q hq => hwf.2 q (List.mem_cons_of_mem _ hq)⟩
    by_cases hkh : k = h
    · subst hkh
      have hrest : (rest.map (fun p => p.2.1)).filter
          (fun i => decide (extractUsername i = some k)) = [] := by
        rw [List.filter_eq_nil_iff]
        intro a ha
        rcases List.mem_map.1 ha with ⟨q, hq, rfl⟩
        have hq' := hrestwf.2 q hq
        have hqk : q.1 ≠ k := by
          intro hh
          apply hnodup.1
          have hm := List.mem_map_of_mem Prod.fst hq
          rw [hh] at hm
          exact hm
        simp [hq', hqk]
      simp [List.filter_cons, hk, seenLookup, hrest]
    · have hkh' : extractUsername x ≠ some h := by
        rw [hk]; exact fun hh => hkh (Option.some_injective _ hh)
      simp [List.filter_cons, hkh', seenLookup, hkh, ih hrestwf]

theorem pickStep_skip (h : String) (cur : Option (RawItem × Int)) (item : RawItem)
    (hne : extractUsername item ≠ some h) : pickStep h cur item = cur := by
  simp [pickStep, hne]

theorem foldl_pickStep_filter (h : String) (l : List RawItem) :
    ∀ cur, l.foldl (pickStep h) cur =
      (l.filter (fun i => decide (extractUsername i = some h))).foldl (pickStep h) cur := by
  induction l with
  | nil => intro cur; rfl
  | cons i rest ih =>
    intro cur
    by_cases hi : extractUsername i = some h
    · have hpi : (fun j => decide (extractUsername j = some h)) i = true := by
        simp [hi]
      rw [List.foldl_cons, ih (pickStep h cur i), List.filter_cons, if_pos hpi,
        List.foldl_cons]
    · have hpi : ¬(fun j => decide (extractUsername j = some h)) i = true := by
        simp [hi]
      rw [List.foldl_cons, pickStep_skip h cur i hi, List.filter_cons, if_neg hpi]
      exact ih cur

theorem pickFold_some (h : String) (rest : List RawItem) :
    ∀ x : RawItem,
      extractUsername x = some h → (∀ y ∈ rest, extractUsername y = some h) →
      ∃ z, rest.foldl (pickStep h) (some (x, tsOrZero x)) = some (z, tsOrZero z) ∧
        z ∈ x :: rest ∧ (∀ y ∈ x :: rest, tsOrZero z ≤ tsOrZero y) ∧
        (x :: rest).find? (fun y => decide (tsOrZero y ≤ tsOrZero z)) = some z := by
  induction rest with
  | nil =>
    intro x hx _
    refine ⟨x, rfl, List.mem_cons_self _ _, ?_, ?_⟩
    · intro y hy
      rcases List.mem_cons.1 hy with rfl | hy'
      · exact le_refl _
      · exact absurd hy' (List.not_mem_nil _)
    · rw [List.find?_cons_of_pos _ (by simp)]
  | cons y rest' ih =>
    intro x hx hall
    have hy : extractUsername y = some h := hall y (List.mem_cons_self _ _)
    have hall' : ∀ z ∈ rest', extractUsername z = some h := fun z hz =>
      hall z (List.mem_cons_of_mem _ hz)
    rw [List.foldl_cons]
    by_cases hgt : tsOrZero x > tsOrZero y
    · have hstep : pickStep h (some (x, tsOrZero x)) y = some (y, tsOrZero y) := by
        simp [pickStep, hy, hgt]
      rw [hstep]
      obtain ⟨z, hfold, hmem, hmin, hfind⟩ := ih y hy hall'
      have hzy : tsOrZero z ≤ tsOrZero y := hmin y (List.mem_cons_self _ _)
      refine ⟨z, hfold, List.mem_cons_of_mem x hmem, ?_, ?_⟩
      · intro w hw
        rcases List.mem_cons.1 hw with rfl | hw'
        · omega
        · exact hmin w hw'
      · have hxz : ¬(tsOrZero x ≤ tsOrZero z) := by omega
        rw [List.find?_cons_of_neg _ (by simpa using hxz), hfind]
    · have hstep : pickStep h (some (x, tsOrZero x)) y = some (x, tsOrZero x) := by
        simp [pickStep, hy, hgt]
      rw [hstep]
      obtain ⟨z, hfold, hmem, hmin, hfind⟩ := ih x hx hall'
      have hzx : tsOrZero z ≤ tsOrZero x := hmin x (List.mem_cons_self _ _)
      have hxy : tsOrZero x ≤ tsOrZero y := by omega
      refine ⟨z, hfold, ?_, ?_, ?_⟩
      · rcases List.mem_cons.1 hmem with rfl | hz'
        · exact List.mem_cons_self _ _
        · exact List.mem_cons_of_mem _ (List.mem_cons_of_mem _ hz')
      · intro w hw
        rcases List.mem_cons.1 hw with rfl | hw'
        · exact hzx
        · rcases List.mem_cons.1 hw' with rfl | hw''
          · omega
          · exact hmin w (List.mem_cons_of_mem _ hw'')
      · by_cases hxle : tsOrZero x ≤ tsOrZero z
        · have hfx : (x :: rest').find?
              (fun w => decide (tsOrZero w ≤ tsOrZero z)) = some x :=
            List.find?_cons_of_pos _ (by simpa using hxle)
          rw [hfx] at hfind
          have hzx' : x = z := Option.some_injective _ hfind
          rw [← hzx']
          exact List.find?_cons_of_pos _ (by simp)
        · have hfind' : rest'.find?
              (fun w => decide (tsOrZero w ≤ tsOrZero z)) = some z := by
            rw [List.find?_cons_of_neg _ (by simpa using hxle)] at hfind
            exact hfind
          have hyz : ¬(tsOrZero y ≤ tsOrZero z) := by omega
          rw [List.find?_cons_of_neg _ (by simpa using hxle),
            List.find?_cons_of_neg _ (by simpa using hyz), hfind']

/-- C4 (amended): for every fragment-record list and every handle, the merged
output of normalizeList contains exactly one record for that handle when the
handle occurs at all (none otherwise), namely the record with the smallest
timestamp-or-zero — a missing timestamp counts as 0, not as absent — with
ties (including missing-vs-earliest) broken in favour of the first-seen
record; a handle all of whose records lack a timestamp keeps a null
timestamp. -/
theorem normalizeList_merge_per_handle (l : List RawItem) (h : String) :
    (l.filter (fun i => decide (extractUsername i = some h)) = [] →
      (normalizeList l).filter (fun i => decide (extractUsername i = some h)) = []) ∧
    (l.filter (fun i => decide (extractUsername i = some h)) ≠ [] →
      ∃ x, (normalizeList l).filter (fun i => decide (extractUsername i = some h)) = [x] ∧
        x ∈ l.filter (fun i => decide (extractUsername i = some h)) ∧
        (∀ y ∈ l.filter (fun i => decide (extractUsername i = some h)),
          tsOrZero x ≤ tsOrZero y) ∧
        (l.filter (fun i => decide (extractUsername i = some h))).find?
          (fun y => decide (tsOrZero y ≤ tsOrZero x)) = some x ∧
        ((∀ y ∈ l.filter (fun i => decide (extractUsername i = some h)),
          extractTimestamp y = none) → extractTimestamp x = none)) := by
  have hwf : seenWF (buildSeen [] l) := buildSeen_wf l [] ⟨List.nodup_nil, by simp⟩
  have hlk : seenLookup (buildSeen [] l) h = l.foldl (pickStep h) none :=
    buildSeen_lookup l [] h
  have hvals := seenVals_filter h (buildSeen [] l) hwf
  have hperm : ((normalizeList l).filter (fun i => decide (extractUsername i = some h))).Perm
      (((buildSeen [] l).map (fun p => p.2.1)).filter
        (fun i => decide (extractUsername i = some h))) := by
    rw [normalizeList]
    exact (List.perm_insertionSort normTsLE ((buildSeen [] l).map (fun p => p.2.1))).filter _
  constructor
  · intro hnil
    have hfold : l.foldl (pickStep h) none = none := by
      rw [foldl_pickStep_filter, hnil]
      rfl
    have hlook : seenLookup (buildSeen [] l) h = none := by rw [hlk, hfold]
    rw [hvals, hlook] at hperm
    exact hperm.eq_nil
  · intro hne
    obtain ⟨x0, rest, hrel⟩ : ∃ x0 rest,
        l.filter (fun i => decide (extractUsername i = some h)) = x0 :: rest := by
      cases hl : l.filter (fun i => decide (extractUsername i = some h)) with
      | nil => exact absurd hl hne
      | cons a b => exact ⟨a, b, rfl⟩
    have hx0 : extractUsername x0 = some h := by
      have hm := List.mem_filter.1 (hrel ▸ List.mem_cons_self x0 rest)
      simpa using hm.2
    have hall : ∀ y ∈ rest, extractUsername y = some h := by
      intro y hy
      have hm : y ∈ l.filter (fun i => decide (extractUsername i = some h)) :=
        hrel ▸ List.mem_cons_of_mem _ hy
      simpa using (List.mem_filter.1 hm).2
    obtain ⟨z, hfold, hmem, hmin, hfind⟩ := pickFold_some h rest x0 hx0 hall
    have hfoldl : l.foldl (pickStep h) none = some (z, tsOrZero z) := by
      rw [foldl_pickStep_filter, hrel, List.foldl_cons]
      have hstep1 : pickStep h none x0 = some (x0, tsOrZero x0) := by
        simp [pickStep, hx0]
      rw [hstep1, hfold]
    have hlook : seenLookup (buildSeen [] l) h = some (z, tsOrZero z) := by
      rw [hlk, hfoldl]
    have hvals' : ((buildSeen [] l).map (fun p => p.2.1)).filter
        (fun i => decide (extractUsername i = some h)) = [z] := by
      rw [hvals, hlook]
      rfl
    rw [hvals'] at hperm
    have hnorm := List.perm_singleton.mp hperm
    refine ⟨z, hnorm, ?_, ?_, ?_, ?_⟩
    · rw [hrel]; exact hmem
    · rw [hrel]; exact hmin
    · rw [hrel]; exact hfind
    · intro hnone
      exact hnone z (hrel ▸ hmem)

/-- Witness input for the merge theorems: handle x observed at timestamp 100
in one fragment. -/
def itemX100 : RawItem :=
  ⟨some [⟨some "x", none, some 100⟩], none, none, none, none⟩

/-- Witness input for the merge theorems: handle x observed at timestamp 50
in another fragment. -/
def itemX50 : RawItem :=
  ⟨some [⟨some "x", none, some 50⟩], none, none, none, none⟩

/-- Witness input for the counterexample: handle x with no timestamp at all. -/
def itemXNone : RawItem :=
  ⟨some [⟨some "x", none, none⟩], none, none, none, none⟩

/-- Witness for normalizeList_merge_per_handle: merging two fragments that
both contain handle x, with timestamps 100 and 50, keeps exactly one record
for x, the one with timestamp 50. -/
theorem normalizeList_merge_per_handle_witness :
    ∃ x, (normalizeList [itemX100, itemX50]).filter
        (fun i => decide (extractUsername i = some "x")) = [x] ∧
      x ∈ [itemX100, itemX50].filter
        (fun i => decide (extractUsername i = some "x")) ∧
      (∀ y ∈ [itemX100, itemX50].filter
        (fun i => decide (extractUsername i = some "x")), tsOrZero x ≤ tsOrZero y) ∧
      ([itemX100, itemX50].filter (fun i => decide (extractUsername i = some "x"))).find?
        (fun y => decide (tsOrZero y ≤ tsOrZero x)) = some x ∧
      ((∀ y ∈ [itemX100, itemX50].filter
          (fun i => decide (extractUsername i = some "x")),
        extractTimestamp y = none) → extractTimestamp x = none) :=
  (normalizeList_merge_per_handle [itemX100, itemX50] "x").2 (by decide)

/-- Counterexample to C4 as stated: merging a fragment record of handle x
with no timestamp and one with known timestamp 100, the merged output keeps
the timestampless record (missing timestamps count as 0 in the code), not
the record with the earliest known timestamp 100. -/
theorem normalizeList_drops_known_timestamp :
    normalizeList [itemXNone, itemX100] = [itemXNone] ∧
    extractTimestamp itemXNone = none ∧
    extractTimestamp itemX100 = some 100 ∧
    extractUsername itemXNone = some "x" ∧
    extractUsername itemX100 = some "x" := by
  refine ⟨?_, rfl, rfl, rfl, rfl⟩
  decide

/-- Example evaluation of the spec's merge scenario: timestamps 100 and 50
merge to the single record carrying 50. -/
theorem normalizeList_example :
    normalizeList [itemX100, itemX50] = [itemX50] := by decide

/-- A previous-session following row as returned by database.getUsers:
username and profile href. -/
structure PrevUser where
  username : String
  href : Option String
deriving DecidableEq, Repr

/-- A row of the unfollowed_profiles table. -/
structure UnfollowedRow where
  username : String
  lastSeenCategory : String
  sessionId : String
  profileUrl : Option String
  unfollowedAt : Int
  source : String
deriving DecidableEq, Repr

/-- addUnfollowedProfile of the database layer: the inserted row carries the
given username, category, session, profile URL and source; unfollowed_at is
the given timestamp when truthy (JS test timestamp ? ... : null), otherwise
the database clock CURRENT_TIMESTAMP (SQL COALESCE). -/
def addUnfollowedProfile (sessionId username lastSeenCategory : String)
    (profileUrl : Option String) (timestamp : Option Int) (source : String)
    (dbNow : Int) : UnfollowedRow :=
  { username := username
    lastSeenCategory := lastSeenCategory
    sessionId := sessionId
    profileUrl := profileUrl
    unfollowedAt :=
      match timestamp with
      | some t => if t = 0 then dbNow else t
      | none => dbNow
    source := source }

/-- The cross-session unfollow detector loop of analyzeFollowers (the
detector variant of the analyzer module, lines 141-170): for every previous
session following row whose username is absent from the current following
handle set, synthesize one detected UnfollowedProfile with the current
processing time and the previous record's href. -/
def detectUnfollowedProfiles (currentSessionId : String)
    (previousUsers : List PrevUser) (following : List Contact)
    (now dbNow : Int) : List UnfollowedRow :=
  let currentFollowingSet := following.map handleOf
  previousUsers.filterMap (fun prevUser =>
    if prevUser.username ∈ currentFollowingSet then none
    else some (addUnfollowedProfile currentSessionId prevUser.username
      "following" prevUser.href (some now) "detected" dbNow))

/-- C5: with a previous following list unique by handle and a non-zero
processing time, the detector emits exactly one record per handle that is in
the previous list but not in the current one, every emitted record has
source detected, unfollowedAt equal to the processing time and the previous
record's profile URL, and a previous list fully contained in the current one
yields no records. -/
theorem detectUnfollowedProfiles_spec (sid : String) (prev : List PrevUser)
    (following : List Contact) (now dbNow : Int)
    (hprev : (prev.map PrevUser.username).Nodup) (hnow : now ≠ 0) :
    (∀ h, (detectUnfollowedProfiles sid prev following now dbNow).countP
        (fun r => decide (r.username = h)) =
      if (∃ p ∈ prev, p.username = h) ∧ h ∉ following.map handleOf then 1 else 0) ∧
    (∀ r ∈ detectUnfollowedProfiles sid prev following now dbNow,
      r.source = "detected" ∧ r.unfollowedAt = now ∧ r.sessionId = sid ∧
      ∃ p ∈ prev, p.username = r.username ∧ r.profileUrl = p.href ∧
        p.username ∉ following.map handleOf) ∧
    ((∀ p ∈ prev, p.username ∈ following.map handleOf) →
      detectUnfollowedProfiles sid prev following now dbNow = []) := by
  refine ⟨?_, ?_, ?_⟩
  · intro h
    induction prev with
    | nil => simp [detectUnfollowedProfiles]
    | cons p rest ih =>
      have hnodup := hprev
      rw [List.map_cons, List.nodup_cons] at hnodup
      have ihr := ih hnodup.2
      by_cases hmem : p.username ∈ following.map handleOf
      · have hstep : detectUnfollowedProfiles sid (p :: rest) following now dbNow =
            detectUnfollowedProfiles sid rest following now dbNow := by
          simp only [detectUnfollowedProfiles, List.filterMap_cons, if_pos hmem]
        have hiff : ((∃ q ∈ p :: rest, q.username = h) ∧ h ∉ following.map handleOf) ↔
            ((∃ q ∈ rest, q.username = h) ∧ h ∉ following.map handleOf) := by
          constructor
          · rintro ⟨⟨q, hq, hqh⟩, h2⟩
            rcases List.mem_cons.1 hq with heq | hq'
            · exact absurd (by rw [← hqh, heq]; exact hmem) h2
            · exact ⟨⟨q, hq', hqh⟩, h2⟩
          · rintro ⟨⟨q, hq, hqh⟩, h2⟩
            exact ⟨⟨q, List.mem_cons_of_mem _ hq, hqh⟩, h2⟩
        rw [hstep, ihr, if_congr hiff.symm rfl rfl]
      · have hstep : detectUnfollowedProfiles sid (p :: rest) following now dbNow =
            addUnfollowedProfile sid p.username "following" p.href (some now)
                "detected" dbNow ::
              detectUnfollowedProfiles sid rest following now dbNow := by
          simp only [detectUnfollowedProfiles, List.filterMap_cons, if_neg hmem]
        by_cases hph : p.username = h
        · have hArest : ¬((∃ q ∈ rest, q.username = h) ∧
              h ∉ following.map handleOf) := by
            rintro ⟨⟨q, hq, hq'⟩, -⟩
            apply hnodup.1
            have hm := List.mem_map_of_mem PrevUser.username hq
            rw [hq', ← hph] at hm
            exact hm
          have hAcons : (∃ q ∈ p :: rest, q.username = h) ∧
              h ∉ following.map handleOf :=
            ⟨⟨p, List.mem_cons_self _ _, hph⟩, hph ▸ hmem⟩
          rw [hstep, List.countP_cons, ihr, if_neg hArest, if_pos hAcons]
          simp [addUnfollowedProfile, hph]
        · have hiff : ((∃ q ∈ p :: rest, q.username = h) ∧
              h ∉ following.map handleOf) ↔
              ((∃ q ∈ rest, q.username = h) ∧ h ∉ following.map handleOf) := by
            constructor
            · rintro ⟨⟨q, hq, hqh⟩, h2⟩
              rcases List.mem_cons.1 hq with heq | hq'
              · exact absurd (heq ▸ hqh) hph
              · exact ⟨⟨q, hq', hqh⟩, h2⟩
            · rintro ⟨⟨q, hq, hqh⟩, h2⟩
              exact ⟨⟨q, List.mem_cons_of_mem _ hq, hqh⟩, h2⟩
          have hmatch : decide ((addUnfollowedProfile sid p.username "following"
              p.href (some now) "detected" dbNow).username = h) = false := by
            simp [addUnfollowedProfile, hph]
          rw [hstep, List.countP_cons, ihr, hmatch, if_congr hiff.symm rfl rfl]
          simp
  · intro r hr
    simp only [detectUnfollowedProfiles] at hr
    rcases List.mem_filterMap.1 hr with ⟨p, hp, hpr⟩
    by_cases hmem : p.username ∈ following.map handleOf
    · rw [if_pos hmem] at hpr
      exact absurd hpr (by simp)
    · rw [if_neg hmem] at hpr
      rcases Option.some_injective _ hpr with rfl
      refine ⟨rfl, ?_, rfl, p, hp, rfl, rfl, hmem⟩
      simp [addUnfollowedProfile, hnow]
  · intro hall
    simp only [detectUnfollowedProfiles]
    rw [List.filterMap_eq_nil_iff]
    intro p hp
    rw [if_pos (hall p hp)]

/-- Previous-session following rows for the detector witness: handles a, b, c. -/
def prevABC : List PrevUser :=
  [⟨"a", some "https://instagram.com/a"⟩, ⟨"b", some "https://instagram.com/b"⟩,
   ⟨"c", none⟩]

/-- Current following contacts for the detector witness: handles a and c. -/
def followingAC : List Contact :=
  [⟨"a", "a", none, some 5⟩, ⟨"c", "c", none, some 6⟩]

/-- Witness for detectUnfollowedProfiles_spec at previous following {a,b,c}
and current following {a,c}. -/
theorem detectUnfollowedProfiles_spec_witness :
    (∀ h, (detectUnfollowedProfiles "s2" prevABC followingAC 1000 2000).countP
        (fun r => decide (r.username = h)) =
      if (∃ p ∈ prevABC, p.username = h) ∧ h ∉ followingAC.map handleOf then 1
      else 0) ∧
    (∀ r ∈ detectUnfollowedProfiles "s2" prevABC followingAC 1000 2000,
      r.source = "detected" ∧ r.unfollowedAt = 1000 ∧ r.sessionId = "s2" ∧
      ∃ p ∈ prevABC, p.username = r.username ∧ r.profileUrl = p.href ∧
        p.username ∉ followingAC.map handleOf) ∧
    ((∀ p ∈ prevABC, p.username ∈ followingAC.map handleOf) →
      detectUnfollowedProfiles "s2" prevABC followingAC 1000 2000 = []) :=
  detectUnfollowedProfiles_spec "s2" prevABC followingAC 1000 2000
    (by decide) (by decide)

/-- Example evaluation of the detector on the spec's scenario: previous
following {a,b,c} and current {a,c} yield exactly one detected record, for b,
carrying b's previous profile URL and the processing time. -/
theorem detectUnfollowedProfiles_example :
    detectUnfollowedProfiles "s2" prevABC followingAC 1000 2000 =
      [⟨"b", "following", "s2", some "https://instagram.com/b", 1000,
        "detected"⟩] := by
  decide

/-- The JSON shapes that backend/routes/upload.js discriminates on after
JSON.parse: an array at the root, or an object with one of the three
relationship list keys. -/
structure EntryData where
  rootArray : Option (List RawItem)
  relationships_following : Option (List RawItem)
  relationships_follow_requests_sent : Option (List RawItem)
  relationships_unfollowed_users : Option (List RawItem)
deriving DecidableEq, Repr

/-- JS test filename.includes(pat). -/
def hasInfix (pat s : String) : Bool := decide (List.IsInfix pat.data s.data)

/-- The entry filter of backend/routes/upload.js:
item?.string_list_data?.[0]?.value && item?.string_list_data?.[0]?.timestamp,
under JS truthiness (non-empty value, non-zero timestamp). -/
def hasValueAndTs (i : RawItem) : Bool :=
  match firstSLD i with
  | some sld =>
    strTruthy sld.value &&
      (match sld.timestamp with
       | some t => decide (t ≠ 0)
       | none => false)
  | none => false

/-- Sort key a.string_list_data[0].timestamp of backend/routes/upload.js;
the 0 fallback is unreachable there because the entries were filtered with
hasValueAndTs first. -/
def sldTs (i : RawItem) : Int :=
  match firstSLD i with
  | some sld =>
    match sld.timestamp with
    | some t => t
    | none => 0
  | none => 0

/-- Field item.string_list_data[0].value; the empty fallback is unreachable
after the hasValueAndTs filter. -/
def sldValue (i : RawItem) : String :=
  match firstSLD i with
  | some sld =>
    match sld.value with
    | some v => v
    | none => ""
  | none => ""

/-- Field item.string_list_data[0].href. -/
def sldHref (i : RawItem) : Option String :=
  match firstSLD i with
  | some sld => sld.href
  | none => none

/-- Ascending comparator (a, b) => ts(a) - ts(b) of the followers/following
sorts. -/
def sldLE (a b : RawItem) : Prop := sldTs a ≤ sldTs b

instance : DecidableRel sldLE :=
  fun a b => inferInstanceAs (Decidable (sldTs a ≤ sldTs b))

/-- Descending comparator (a, b) => ts(b) - ts(a) of the pending-requests
sort. -/
def sldGE (a b : RawItem) : Prop := sldTs b ≤ sldTs a

instance : DecidableRel sldGE :=
  fun a b => inferInstanceAs (Decidable (sldTs b ≤ sldTs a))

/-- An unfollowed-profile import record {username, href, timestamp} mapped
out of a recently_unfollowed_profiles.json entry. -/
structure UnfImport where
  username : String
  href : Option String
  timestamp : Int
deriving DecidableEq, Repr

/-- The shared processedData accumulator of
processInstagramDataOptimized. -/
structure ProcessedData where
  followers : List RawItem
  following : List RawItem
  pendingRequests : List RawItem
  unfollowedProfiles : List UnfImport
deriving DecidableEq, Repr

/-- processFileContent of backend/routes/upload.js (lines 199-278): on a
successfully parsed entry, each filename test that matches ASSIGNS the
corresponding processedData list to this entry's filtered (and sorted)
records, replacing whatever a previously processed entry of the same kind
put there; a parse failure leaves processedData untouched. -/
def processFileContent (filename : String) (data : Option EntryData)
    (pd : ProcessedData) : ProcessedData :=
  match data with
  | none => pd
  | some d =>
    let pd1 :=
      if hasInfix "followers_" filename then
        match d.rootArray with
        | some arr =>
          { pd with followers := (arr.filter hasValueAndTs).insertionSort sldLE }
        | none => pd
      else pd
    let pd2 :=
      if hasInfix "following.json" filename then
        match d.relationships_following with
        | some arr =>
          { pd1 with following := (arr.filter hasValueAndTs).insertionSort sldLE }
        | none => pd1
      else pd1
    let pd3 :=
      if hasInfix "pending_follow_requests.json" filename then
        match d.relationships_follow_requests_sent with
        | some arr =>
          { pd2 with pendingRequests :=
              (arr.filter hasValueAndTs).insertionSort sldGE }
        | none => pd2
      else pd2
    if hasInfix "recently_unfollowed_profiles.json" filename then
      match d.relationships_unfollowed_users with
      | some arr =>
        { pd3 with unfollowedProfiles :=
            ((arr.filter hasValueAndTs).map
              (fun i => ⟨sldValue i, sldHref i, sldTs i⟩)) }
      | none => pd3
    else pd3

/-- The per-entry loop of processInstagramDataOptimized over all non-directory
archive entries, starting from empty lists. -/
def processAllEntries (entries : List (String × Option EntryData)) :
    ProcessedData :=
  entries.foldl (fun pd e => processFileContent e.1 e.2 pd) ⟨[], [], [], []⟩

/-- The empty-dataset verification of processInstagramDataOptimized
(backend/routes/upload.js lines 112-119): throw when followers, following
and pendingRequests are all empty, otherwise continue with the data. -/
def processInstagramDataCheck (entries : List (String × Option EntryData)) :
    Except String ProcessedData :=
  let pd := processAllEntries entries
  if pd.followers = [] ∧ pd.following = [] ∧ pd.pendingRequests = [] then
    Except.error "No valid data found in the upload"
  else Except.ok pd

theorem processFileContent_irrelevant_name (filename : String)
    (data : Option EntryData) (pd : ProcessedData)
    (h1 : hasInfix "followers_" filename = false)
    (h2 : hasInfix "following.json" filename = false)
    (h3 : hasInfix "pending_follow_requests.json" filename = false) :
    (processFileContent filename data pd).followers = pd.followers ∧
    (processFileContent filename data pd).following = pd.following ∧
    (processFileContent filename data pd).pendingRequests = pd.pendingRequests := by
  cases data with
  | none => exact ⟨rfl, rfl, rfl⟩
  | some d =>
    by_cases h4 : hasInfix "recently_unfollowed_profiles.json" filename = true
    · cases harr : d.relationships_unfollowed_users <;>
        simp [processFileContent, h1, h2, h3, h4, harr]
    · simp [processFileContent, h1, h2, h3, h4]

theorem processAllEntries_foldl_irrelevant
    (entries : List (String × Option EntryData))
    (hall : ∀ e ∈ entries, hasInfix "followers_" e.1 = false ∧
      hasInfix "following.json" e.1 = false ∧
      hasInfix "pending_follow_requests.json" e.1 = false) :
    ∀ pd : ProcessedData,
      (entries.foldl (fun pd e => processFileContent e.1 e.2 pd) pd).followers =
        pd.followers ∧
      (entries.foldl (fun pd e => processFileContent e.1 e.2 pd) pd).following =
        pd.following ∧
      (entries.foldl (fun pd e => processFileContent e.1 e.2 pd) pd).pendingRequests =
        pd.pendingRequests := by
  induction entries with
  | nil => intro pd; exact ⟨rfl, rfl, rfl⟩
  | cons e rest ih =>
    intro pd
    have he := hall e (List.mem_cons_self _ _)
    have hstep := processFileContent_irrelevant_name e.1 e.2 pd he.1 he.2.1 he.2.2
    have ihr := ih (fun x hx => hall x (List.mem_cons_of_mem _ hx))
      (processFileContent e.1 e.2 pd)
    rw [List.foldl_cons]
    exact ⟨ihr.1.trans hstep.1, ihr.2.1.trans hstep.2.1, ihr.2.2.trans hstep.2.2⟩

/-- C6: processing fails with the empty-dataset error exactly when, after
classifying and parsing every entry, the followers, following and
pending-requests lists are all empty; whenever one of the three is
non-empty the error is not raised; and an archive none of whose entry names
classifies as followers, following or pending (for instance one containing
only recently_unfollowed_profiles records) always fails with this error. -/
theorem processInstagramDataCheck_empty_iff
    (entries : List (String × Option EntryData)) :
    ((∃ msg, processInstagramDataCheck entries = Except.error msg) ↔
      ((processAllEntries entries).followers = [] ∧
       (processAllEntries entries).following = [] ∧
       (processAllEntries entries).pendingRequests = [])) ∧
    ((∀ e ∈ entries, hasInfix "followers_" e.1 = false ∧
        hasInfix "following.json" e.1 = false ∧
        hasInfix "pending_follow_requests.json" e.1 = false) →
      ∃ msg, processInstagramDataCheck entries = Except.error msg) := by
  have hiff : (∃ msg, processInstagramDataCheck entries = Except.error msg) ↔
      ((processAllEntries entries).followers = [] ∧
       (processAllEntries entries).following = [] ∧
       (processAllEntries entries).pendingRequests = []) := by
    constructor
    · rintro ⟨msg, hmsg⟩
      by_cases hc : (processAllEntries entries).followers = [] ∧
          (processAllEntries entries).following = [] ∧
          (processAllEntries entries).pendingRequests = []
      · exact hc
      · rw [processInstagramDataCheck] at hmsg
        rw [if_neg hc] at hmsg
        exact absurd hmsg (by simp)
    · intro hc
      refine ⟨"No valid data found in the upload", ?_⟩
      rw [processInstagramDataCheck, if_pos hc]
  refine ⟨hiff, ?_⟩
  intro hall
  refine hiff.mpr ?_
  exact processAllEntries_foldl_irrelevant entries hall ⟨[], [], [], []⟩

/-- A valid recently-unfollowed export entry for the C6 witness. -/
def unfOnlyEntry : String × Option EntryData :=
  ("recently_unfollowed_profiles.json",
   some ⟨none, none, none, some [⟨some [⟨some "zoe", none, some 70⟩],
     none, none, none, none⟩]⟩)

/-- Witness for processInstagramDataCheck_empty_iff: an archive containing
only an unfollowed-profiles entry still fails with the empty-dataset error,
even though it yields an imported unfollowed record. -/
theorem processInstagramDataCheck_empty_iff_witness :
    (∃ msg, processInstagramDataCheck [unfOnlyEntry] = Except.error msg) ∧
    (processAllEntries [unfOnlyEntry]).unfollowedProfiles ≠ [] :=
  ⟨(processInstagramDataCheck_empty_iff [unfOnlyEntry]).2 (by decide),
   by decide⟩

/-- A followers_1.json entry holding only alice. -/
def aliceEntry : String × Option EntryData :=
  ("followers_1.json",
   some ⟨some [⟨some [⟨some "alice", none, some 10⟩], none, none, none, none⟩],
     none, none, none⟩)

/-- A followers_2.json entry holding only bob. -/
def bobEntry : String × Option EntryData :=
  ("followers_2.json",
   some ⟨some [⟨some [⟨some "bob", none, some 20⟩], none, none, none, none⟩],
     none, none, none⟩)

/-- C7 failing input evaluated on backend/routes/upload.js: processing
followers_1.json (alice) and then followers_2.json (bob) leaves only bob's
record — each same-kind entry overwrites processedData.followers, so the
records of the earlier entry do not contribute to the output. -/
theorem processFileContent_last_entry_wins :
    (processAllEntries [aliceEntry, bobEntry]).followers =
      [⟨some [⟨some "bob", none, some 20⟩], none, none, none, none⟩] ∧
    (⟨some [⟨some "alice", none, some 10⟩], none, none, none, none⟩ : RawItem) ∉
      (processAllEntries [aliceEntry, bobEntry]).followers := by
  refine ⟨?_, ?_⟩ <;> decide

/-- JS expression parseInt(q) || default used by the routes: an absent or
unparsable parameter gives the default, and so does a parsed 0 (falsy). -/
def parseIntOr (v : Option Int) (d : Int) : Int :=
  match v with
  | some n => if n = 0 then d else n
  | none => d

/-- validatePagination of backend/routes/analysis.js (lines 17-25): accept
exactly when page ≥ 1 and 1 ≤ limit ≤ 100 after defaulting. -/
def validatePagination (qpage qlimit : Option Int) : Bool :=
  !(decide (parseIntOr qpage 1 < 1) || decide (parseIntOr qlimit 20 < 1) ||
    decide (parseIntOr qlimit 20 > 100))

/-- Math.ceil(a / b), via ceil x = -floor(-x); used with b > 0 only. -/
def jsCeilDiv (a b : Int) : Int := -((-a).fdiv b)

/-- ORDER BY unfollowed_at DESC comparator. -/
def unfDesc (a b : UnfollowedRow) : Prop := b.unfollowedAt ≤ a.unfollowedAt

instance : DecidableRel unfDesc :=
  fun a b => inferInstanceAs (Decidable (b.unfollowedAt ≤ a.unfollowedAt))

instance : IsTotal UnfollowedRow unfDesc :=
  ⟨fun a b => (Int.le_total a.unfollowedAt b.unfollowedAt).symm⟩

instance : IsTrans UnfollowedRow unfDesc :=
  ⟨fun _ _ _ hab hbc => le_trans hbc hab⟩

/-- The username LIKE %search% filter of getUnfollowedProfiles, as a
substring test on the handle. -/
def likeFilter (search : Option String) (rows : List UnfollowedRow) :
    List UnfollowedRow :=
  match search with
  | none => rows
  | some s => rows.filter (fun r => hasInfix s r.username)

/-- LIMIT ? OFFSET ? of SQLite: a negative OFFSET behaves like 0 and a
negative LIMIT means unbounded. -/
def sqliteLimitOffset (rows : List UnfollowedRow) (limit offset : Int) :
    List UnfollowedRow :=
  if limit < 0 then rows.drop offset.toNat
  else (rows.drop offset.toNat).take limit.toNat

/-- getUnfollowedProfiles of the database layer: filter by the search
substring, order by unfollowed_at descending, then apply LIMIT/OFFSET. -/
def getUnfollowedProfilesQ (rows : List UnfollowedRow) (limit offset : Int)
    (search : Option String) : List UnfollowedRow :=
  sqliteLimitOffset ((likeFilter search rows).insertionSort unfDesc) limit offset

/-- getUnfollowedProfilesCount of the database layer. -/
def getUnfollowedProfilesCount (rows : List UnfollowedRow)
    (search : Option String) : Nat :=
  (likeFilter search rows).length

/-- The pagination envelope returned by the unfollowed route. -/
structure UnfollowedPage where
  data : List UnfollowedRow
  page : Int
  limit : Int
  totalItems : Int
  totalPages : Int
deriving DecidableEq, Repr

/-- The GET /:sessionId/unfollowed handler of backend/routes/analysis.js
(lines 269-333): parse page and limit with defaults and NO range validation
(validatePagination is not applied on this route), 404 when the session is
unknown, otherwise return the LIMIT/OFFSET slice with
totalPages = Math.ceil(totalCount / limit). -/
def unfollowedRoute (analysisExists : Bool) (rows : List UnfollowedRow)
    (qpage qlimit : Option Int) (search : Option String) :
    Except String UnfollowedPage :=
  let page := parseIntOr qpage 1
  let limit := parseIntOr qlimit 20
  let offset := (page - 1) * limit
  if analysisExists = false then Except.error "Analysis session not found"
  else
    Except.ok
      { data := getUnfollowedProfilesQ rows limit offset search
        page := page
        limit := limit
        totalItems := (getUnfollowedProfilesCount rows search : Int)
        totalPages := jsCeilDiv (getUnfollowedProfilesCount rows search) limit }

/-- C8 (amended): for in-range page and limit the unfollowed route returns
the slice of the full ordered result starting at offset (page-1)*limit with
at most limit items, and totalPages = ceil(total/limit); the repository's
validatePagination guard accepts exactly page ≥ 1 and 1 ≤ limit ≤ 100 —
but the unfollowed route never applies it, so out-of-range values are
processed rather than rejected. -/
theorem unfollowedRoute_pagination (rows : List UnfollowedRow)
    (qpage qlimit : Option Int)
    (hpage : 1 ≤ parseIntOr qpage 1) (hlimit : 1 ≤ parseIntOr qlimit 20) :
    (∃ pageData, unfollowedRoute true rows qpage qlimit none = Except.ok pageData ∧
      pageData.data = ((rows.insertionSort unfDesc).drop
          (((parseIntOr qpage 1 - 1) * parseIntOr qlimit 20).toNat)).take
          (parseIntOr qlimit 20).toNat ∧
      pageData.data.length ≤ (parseIntOr qlimit 20).toNat ∧
      pageData.totalPages = jsCeilDiv rows.length (parseIntOr qlimit 20) ∧
      pageData.totalItems = (rows.length : Int)) ∧
    (validatePagination qpage qlimit = true ↔
      (1 ≤ parseIntOr qpage 1 ∧ 1 ≤ parseIntOr qlimit 20 ∧
        parseIntOr qlimit 20 ≤ 100)) := by
  constructor
  · refine ⟨UnfollowedPage.mk
      (getUnfollowedProfilesQ rows (parseIntOr qlimit 20)
        ((parseIntOr qpage 1 - 1) * parseIntOr qlimit 20) none)
      (parseIntOr qpage 1) (parseIntOr qlimit 20) (rows.length : Int)
      (jsCeilDiv rows.length (parseIntOr qlimit 20)),
      rfl, ?_, ?_, rfl, rfl⟩
    · show getUnfollowedProfilesQ rows (parseIntOr qlimit 20)
          ((parseIntOr qpage 1 - 1) * parseIntOr qlimit 20) none = _
      rw [getUnfollowedProfilesQ, sqliteLimitOffset, if_neg (by omega)]
      rfl
    · show (getUnfollowedProfilesQ rows (parseIntOr qlimit 20)
          ((parseIntOr qpage 1 - 1) * parseIntOr qlimit 20) none).length ≤ _
      rw [getUnfollowedProfilesQ, sqliteLimitOffset, if_neg (by omega),
        List.length_take]
      exact min_le_left _ _
  · rw [validatePagination]
    simp only [Bool.not_eq_true', Bool.or_eq_false_iff, decide_eq_false_iff_not,
      not_lt]
    omega

/-- A 45-item unfollowed list for the pagination witness, already in
unfollowed_at-descending order. -/
def rows45 : List UnfollowedRow :=
  (List.range 45).map (fun k =>
    ⟨"user" ++ toString k, "following", "s", none, (1000 : Int) - k, "detected"⟩)

/-- Witness for unfollowedRoute_pagination: the spec's 45-item example with
page = 2 and limit = 20. -/
theorem unfollowedRoute_pagination_witness :
    (∃ pageData, unfollowedRoute true rows45 (some 2) (some 20) none =
        Except.ok pageData ∧
      pageData.data = ((rows45.insertionSort unfDesc).drop
          (((parseIntOr (some 2) 1 - 1) * parseIntOr (some 20) 20).toNat)).take
          (parseIntOr (some 20) 20).toNat ∧
      pageData.data.length ≤ (parseIntOr (some 20) 20).toNat ∧
      pageData.totalPages = jsCeilDiv rows45.length (parseIntOr (some 20) 20) ∧
      pageData.totalItems = (rows45.length : Int)) ∧
    (validatePagination (some 2) (some 20) = true ↔
      (1 ≤ parseIntOr (some 2) 1 ∧ 1 ≤ parseIntOr (some 20) 20 ∧
        parseIntOr (some 20) 20 ≤ 100)) :=
  unfollowedRoute_pagination rows45 (some 2) (some 20) (by decide) (by decide)

/-- Example evaluation of the witness scenario: page 2 with limit 20 over the
45-item list returns 20 items and totalPages = 3. -/
theorem unfollowedRoute_pagination_example :
    ∃ pageData, unfollowedRoute true rows45 (some 2) (some 20) none =
        Except.ok pageData ∧
      pageData.data.length = 20 ∧ pageData.totalPages = 3 ∧
      pageData.data.head?.map (fun r => r.username) = some "user20" := by
  refine ⟨UnfollowedPage.mk
      (getUnfollowedProfilesQ rows45 20 20 none) 2 20 45 3, ?_, ?_, rfl, ?_⟩
  · rfl
  · decide
  · decide

/-- Two unfollowed rows used by the counterexample. -/
def rows2 : List UnfollowedRow :=
  [⟨"u1", "following", "s", none, 1000, "detected"⟩,
   ⟨"u2", "following", "s", none, 999, "detected"⟩]

/-- Counterexample to C8 as stated: a request with limit = 101 is out of the
claimed range, validatePagination would reject it, yet the unfollowed route
(which never invokes validatePagination) processes it and answers 200 with
data instead of an error. -/
theorem unfollowedRoute_accepts_limit_101 :
    validatePagination none (some 101) = false ∧
    (unfollowedRoute true rows2 none (some 101) none).isOk = true := by
  refine ⟨by decide, by decide⟩

/-- A row of the follower_events table. Timestamps are Unix seconds; the
ISO-string normalization performed by saveFollowerEvent is injective on
seconds, so equality of stored event_timestamp strings is equality of the
seconds. -/
structure FollowerEventRow where
  sessionId : String
  eventTimestamp : Int
  followersCount : Int
  followingCount : Int
  direction : String
  username : String
deriving DecidableEq, Repr

/-- saveFollowerEvent of backend/models/database.js (lines 279-375):
validate session id, direction and username; skip the insert whenever some
already-stored event of the same session has the same normalized timestamp
(the check query filters on session_id and event_timestamp only); otherwise
insert, subject to the table's UNIQUE(session_id, username, direction)
constraint, clamping the counts at 0. -/
def saveFollowerEvent (db : List FollowerEventRow) (sessionId : String)
    (timestamp : Int) (followersCount followingCount : Int)
    (direction username : String) : Except String (List FollowerEventRow) :=
  if sessionId = "" then Except.error "Valid session ID is required"
  else if ¬(direction = "follower" ∨ direction = "following") then
    Except.error "Valid direction (follower/following) is required"
  else if username = "" then Except.error "Username is required"
  else if db.any (fun r =>
      decide (r.sessionId = sessionId) && decide (r.eventTimestamp = timestamp)) then
    Except.ok db
  else if db.any (fun r => decide (r.sessionId = sessionId) &&
      decide (r.username = username) && decide (r.direction = direction)) then
    Except.error "Failed to save follower event"
  else
    Except.ok (db ++ [⟨sessionId, timestamp, max 0 followersCount,
      max 0 followingCount, direction, username⟩])

/-- C10: the per-event save path deduplicates by (sessionId, timestamp)
only: whenever any stored event of the session carries the same normalized
timestamp, saveFollowerEvent inserts nothing and succeeds with the database
unchanged, regardless of the new event's handle or direction; consequently
two distinct accounts observed at the same second yield a single stored
event through this path. -/
theorem saveFollowerEvent_dedup_by_timestamp :
    (∀ (db : List FollowerEventRow) (sid : String) (ts fc gc : Int)
        (dir uname : String),
      sid ≠ "" → (dir = "follower" ∨ dir = "following") → uname ≠ "" →
      (∃ r ∈ db, r.sessionId = sid ∧ r.eventTimestamp = ts) →
      saveFollowerEvent db sid ts fc gc dir uname = Except.ok db) ∧
    (∀ (sid : String) (ts fc gc : Int) (d1 d2 u1 u2 : String),
      sid ≠ "" → (d1 = "follower" ∨ d1 = "following") →
      (d2 = "follower" ∨ d2 = "following") → u1 ≠ "" → u2 ≠ "" →
      saveFollowerEvent [] sid ts fc gc d1 u1 =
        Except.ok [⟨sid, ts, max 0 fc, max 0 gc, d1, u1⟩] ∧
      saveFollowerEvent [⟨sid, ts, max 0 fc, max 0 gc, d1, u1⟩] sid ts fc gc
          d2 u2 =
        Except.ok [⟨sid, ts, max 0 fc, max 0 gc, d1, u1⟩]) := by
  have hdedup : ∀ (db : List FollowerEventRow) (sid : String) (ts fc gc : Int)
      (dir uname : String),
      sid ≠ "" → (dir = "follower" ∨ dir = "following") → uname ≠ "" →
      (∃ r ∈ db, r.sessionId = sid ∧ r.eventTimestamp = ts) →
      saveFollowerEvent db sid ts fc gc dir uname = Except.ok db := by
    intro db sid ts fc gc dir uname hsid hdir huser hdup
    have hany : db.any (fun r =>
        decide (r.sessionId = sid) && decide (r.eventTimestamp = ts)) = true := by
      rcases hdup with ⟨r, hr, h1, h2⟩
      exact List.any_eq_true.mpr ⟨r, hr, by simp [h1, h2]⟩
    rw [saveFollowerEvent, if_neg hsid, if_neg (not_not_intro hdir),
      if_neg huser, if_pos hany]
  refine ⟨hdedup, ?_⟩
  intro sid ts fc gc d1 d2 u1 u2 hsid hd1 hd2 hu1 hu2
  constructor
  · rw [saveFollowerEvent, if_neg hsid, if_neg (not_not_intro hd1),
      if_neg hu1]
    simp
  · exact hdedup [⟨sid, ts, max 0 fc, max 0 gc, d1, u1⟩] sid ts fc gc d2 u2
      hsid hd2 hu2 ⟨_, List.mem_cons_self _ _, rfl, rfl⟩

/-- Witness for saveFollowerEvent_dedup_by_timestamp: alice's follower event
at second 100 is stored, then bob's following event at the same second is
silently skipped. -/
theorem saveFollowerEvent_dedup_witness :
    saveFollowerEvent [] "s" 100 1 0 "follower" "alice" =
      Except.ok [⟨"s", 100, max 0 1, max 0 0, "follower", "alice"⟩] ∧
    saveFollowerEvent [⟨"s", 100, max 0 1, max 0 0, "follower", "alice"⟩] "s"
        100 1 0 "following" "bob" =
      Except.ok [⟨"s", 100, max 0 1, max 0 0, "follower", "alice"⟩] :=
  saveFollowerEvent_dedup_by_timestamp.2 "s" 100 1 0 "follower" "following"
    "alice" "bob" (by decide) (Or.inl rfl) (Or.inr rfl) (by decide) (by decide)
